import Mathlib

/-!
Shallow embedding of the effect-handling core of the `hyogwa` repository
(`src/core.ts`): Actions, effectful computations (generator objects),
the `createEffect` action-creator factory, the `_handle` dispatch loop with
its one-shot `resume`/`abort` handle tactics, and the `handle` entry point
with its three call forms.

Modelling decisions, all taken from the source:

* JavaScript is dynamically typed, so every runtime value is drawn from one
  universal type `Value` (numbers, strings, `undefined`, arrays).
* An effectful computation is a generator object.  Its whole observable
  behaviour under the `next` protocol is a tree: each `next` call either
  returns `{done: true, value: r}` (constructor `ret`), throws an exception
  (constructor `err`), or returns `{done: false, value: action}` and waits
  for a resumption value (constructor `op`, whose second field maps the
  resumption value supplied to the following `next` call to the rest of the
  behaviour).  The root of the tree is the outcome of the first `next()`.
* The action yielded by the value-shaped creator in the source literally
  has no `parameters` property, so `Action.parameters` is an
  `Option (List Value)`: `none` models an absent (`undefined`) field.
* A handler table is a JavaScript object of objects; an object is modelled
  by its own-property lookup function (prototype-chain lookups are not
  modelled).  An entry is either a non-function value (`plain`) or a
  function (`fn`).
* An operation-shaped handler entry interacts with the dispatch loop only
  through (a) synchronous calls to the one-shot tactics `resume`/`abort`
  and (b) the nested generator it may return, which the loop drives with
  `yield*` and whose body may also yield actions and call the captured
  tactics.  `HandlerBody` is the trace of that interaction: an interleaved
  sequence of tactic calls and yields ending in a return (whose value the
  loop discards).  Handler entries throwing their own exceptions are not
  modelled.
-/

namespace Hyogwa

/-- Universal type of the JavaScript runtime values the embedding needs. -/
inductive Value : Type where
  | vUndef : Value
  | vNat : Nat → Value
  | vStr : String → Value
  | vList : List Value → Value

/-- Runtime representation of an action (`Action` interface of `core.ts`):
`{effectName, constructorName, parameters}`.  `parameters = none` models an
object created without the `parameters` property (it reads as `undefined`),
which is exactly what the value-shaped action creator produces. -/
structure Action : Type where
  effectName : String
  constructorName : String
  parameters : Option (List Value)

/-- Exceptions the dispatch loop can raise: the `HandleError` class of
`core.ts` (carrying the offending action and the reason string), and the
`TypeError` raised by spreading an `undefined` parameter list
(`handler(...action.parameters, tactics)` when the action has no
`parameters` field). -/
inductive RuntimeError : Type where
  | handleError : Action → String → RuntimeError
  | typeError : RuntimeError

/-- Behaviour tree of an effectful computation (the `Effectful` interface of
`core.ts`, i.e. a generator object observed through the `next` protocol).
`ret r` : `next` returns `{done: true, value: r}`;
`err e` : `next` throws `e`;
`op a k` : `next` returns `{done: false, value: a}` and the behaviour after
the consumer supplies resumption value `v` is `k v`. -/
inductive Effectful : Type where
  | ret : Value → Effectful
  | err : RuntimeError → Effectful
  | op : Action → (Value → Effectful) → Effectful

/-- Trace of one operation-shaped handler entry's interaction with the
dispatch loop: the synchronous body may call the one-shot tactics, and the
nested generator the entry may return (driven by `yield*` at line 233 of
`core.ts`) may yield actions and call the captured tactics as well.
`ret w` ends the interaction; `w` is the nested generator's return value,
which the loop discards (`yield*`'s result is unused). -/
inductive HandlerBody : Type where
  | ret : Value → HandlerBody
  | yieldAct : Action → (Value → HandlerBody) → HandlerBody
  | callResume : Value → HandlerBody → HandlerBody
  | callAbort : Value → HandlerBody → HandlerBody

/-- One entry of a handler table: a non-function value (value-shaped, the
`typeof entry !== 'function'` branch) or a function from the action's
parameter list to its interaction trace (operation-shaped). -/
inductive HandlerEntry : Type where
  | plain : Value → HandlerEntry
  | fn : (List Value → HandlerBody) → HandlerEntry

/-- A handler table: a JavaScript object mapping effect names to objects
mapping constructor names to entries, modelled by its lookup function. -/
def HandlerTable : Type := String → Option (String → Option HandlerEntry)

/-- The two-level lookup `action.effectName in handlers &&
action.constructorName in handlers[action.effectName]` of `core.ts`
line 200, together with the property access that follows it. -/
def lookupHandler (handlers : HandlerTable) (a : Action) : Option HandlerEntry :=
  match handlers a.effectName with
  | none => none
  | some sub => sub a.constructorName

/-- State of the one-shot tactics for the action currently being handled.
It packages the source's `isPreviousEffectResolved`, `aborted` and
`abortedValue` variables together with the effect of `resume` on `thrown`:
`unres` — no tactic called yet (`isPreviousEffectResolved = false`);
`resumedWith v` — `resume(v)` was called, i.e. `thrown = computation.next(v)`;
`abortedWith v` — `abort(v)` was called. -/
inductive TacticState : Type where
  | unres : TacticState
  | resumedWith : Value → TacticState
  | abortedWith : Value → TacticState

/-- Outcome of running one handler entry's interaction trace to its end:
an exception escaped (`errO`), `abort(v)` was the tactic used (`abortO`),
`resume(v)` was the tactic used (`resumeO`), or the body finished without
ever calling a tactic (`unresolvedO`). -/
inductive BodyOutcome : Type where
  | errO : RuntimeError → BodyOutcome
  | abortO : Value → BodyOutcome
  | resumeO : Value → BodyOutcome
  | unresolvedO : BodyOutcome

/-- The segment of `_handle`'s own output generated while one handler entry
runs: the actions the entry's nested generator yields (forwarded through
the result computation by `yield*`), ending in a `BodyOutcome`. -/
inductive BodyTrace : Type where
  | done : BodyOutcome → BodyTrace
  | op : Action → (Value → BodyTrace) → BodyTrace

/-- Reason string of the `HandleError` raised on a second tactic call
(`core.ts` lines 216 and 222). -/
def doubleTacticReason : String := "cannot call handle tactics more than once"

/-- Reason string of the `HandleError` raised when a handler entry never
calls a tactic (`core.ts` line 243). -/
def missingTacticReason : String := "Effect handlers must call handle tactics"

/-- Run one operation-shaped handler entry's interaction trace against the
tactics closures of `core.ts` lines 213–228.  `a` is the action being
handled (captured by the closures for error messages), `k` is the suspended
computation's continuation (so `computation.next(v)` is `k v`), and `st` is
the current `TacticState`.

* `resume(v)` with a tactic already called throws the double-invocation
  `HandleError`; otherwise it runs `thrown = computation.next(v)`, which
  either throws (ending everything with that exception) or stores the new
  state.
* `abort(v)` with a tactic already called throws likewise; otherwise it
  records the aborted value.  It does not advance the computation and does
  not stop the entry's own trace.
* A yielded action is forwarded (`yield*`) and the consumer's resumption
  value is fed to the rest of the nested generator.
* When the trace ends, the loop inspects the tactic state. -/
def runHandlerBody (a : Action) (k : Value → Effectful) :
    HandlerBody → TacticState → BodyTrace
  | .ret _, .unres => .done .unresolvedO
  | .ret _, .resumedWith v => .done (.resumeO v)
  | .ret _, .abortedWith v => .done (.abortO v)
  | .yieldAct a' k', st => .op a' fun v => runHandlerBody a k (k' v) st
  | .callResume v hc, .unres =>
    match k v with
    | .err e => .done (.errO e)
    | _ => runHandlerBody a k hc (.resumedWith v)
  | .callResume _ _, .resumedWith _ => .done (.errO (.handleError a doubleTacticReason))
  | .callResume _ _, .abortedWith _ => .done (.errO (.handleError a doubleTacticReason))
  | .callAbort v hc, .unres => runHandlerBody a k hc (.abortedWith v)
  | .callAbort _ _, .resumedWith _ => .done (.errO (.handleError a doubleTacticReason))
  | .callAbort _ _, .abortedWith _ => .done (.errO (.handleError a doubleTacticReason))

/-- Graft a computation onto every leaf of a body trace: the suspensions of
the trace stay suspensions of the result, and each final outcome `o` is
replaced by `f o`. -/
def BodyTrace.bind : BodyTrace → (BodyOutcome → Effectful) → Effectful
  | .done o, f => f o
  | .op a k, f => .op a fun v => BodyTrace.bind (k v) f

/-- How the dispatch loop proceeds once a handler entry's interaction trace
has ended (`core.ts` lines 240–245): an escaped exception propagates, an
abort makes the result complete with the aborted value, a never-invoked
tactic raises the `HandleError` of line 243, and `resume(v)` lets the loop
continue on `computation.next(v)` — the continuation `recur` abstracts the
loop's re-entry. -/
def applyOutcome (recur : Value → Effectful) (a : Action) : BodyOutcome → Effectful
  | .errO e => .err e
  | .abortO v => .ret v
  | .resumeO v => recur v
  | .unresolvedO => .err (.handleError a missingTacticReason)

/-- The dispatch loop `_handle` of `core.ts` lines 187–246, as a function
from the behaviour tree of `computation` to the behaviour tree of the
generator `_handle(computation, handlers)`.

* `computation` completed: the loop never runs, `_handle` returns
  `thrown.value` (line 245).
* `computation.next` threw: the exception propagates.
* `computation` suspended with action `a`:
  - no matching entry (line 235): the result suspends with `a` itself and
    the consumer's resumption value is fed back into `computation`
    (line 237);
  - a non-function entry (line 203): the computation is resumed with that
    plain value at once and the loop continues (line 205);
  - a function entry (line 210): spreading an absent parameter list throws
    a `TypeError`; otherwise the entry is invoked with the parameters and
    fresh tactics, its interaction trace is forwarded, and its final
    outcome decides how the loop proceeds: an escaped exception
    propagates, `abort(v)` makes the whole result complete with `v`
    (lines 195 and 245), a never-called tactic raises the `HandleError` of
    line 243, and `resume(v)` lets the loop continue on
    `computation.next(v)`. -/
def _handle : Effectful → HandlerTable → Effectful
  | .ret v, _ => .ret v
  | .err e, _ => .err e
  | .op a k, handlers =>
    match lookupHandler handlers a with
    | none => .op a fun v => _handle (k v) handlers
    | some (.plain w) => _handle (k w) handlers
    | some (.fn f) =>
      match a.parameters with
      | none => .err .typeError
      | some ps =>
        BodyTrace.bind (runHandlerBody a k (f ps) .unres)
          (applyOutcome (fun v => _handle (k v) handlers) a)

/-- The part of `_handle`'s behaviour contributed by one operation-shaped
handler entry: the entry's interaction trace, run from tactic state `st`
against the suspended continuation `k`, followed by the dispatch on its
outcome. -/
def handleBody (handlers : HandlerTable) (a : Action) (k : Value → Effectful)
    (hc : HandlerBody) (st : TacticState) : Effectful :=
  BodyTrace.bind (runHandlerBody a k hc st)
    (applyOutcome (fun v => _handle (k v) handlers) a)

/-- The two entry points a property access on a `createEffect` namespace
yields (`core.ts` lines 86–102): the callable itself (operation-shaped use)
and its `Symbol.iterator` method (value-shaped use). -/
structure ActionCreator : Type where
  call : List Value → Effectful
  iter : Effectful

/-- The effect constructor `createEffect` of `core.ts` lines 83–104.  The
proxy turns an access to any property `constructorName` into an action
creator.  Calling the creator with `parameters` gives a fresh generator
that yields the record of `effectName`, `constructorName` and `parameters`
once and then returns whatever resumption value it is given.  Iterating
the creator gives a fresh generator that yields a record carrying only
`effectName` and `constructorName` — it has no `parameters` property. -/
def createEffect (effectName : String) : String → ActionCreator :=
  fun constructorName =>
    { call := fun parameters =>
        Effectful.op ⟨effectName, constructorName, some parameters⟩ Effectful.ret
      iter := Effectful.op ⟨effectName, constructorName, none⟩ Effectful.ret }

/-- A runtime argument of the public `handle` function, which dispatches on
the dynamic shape of its arguments (`core.ts` lines 262–267): a generator
object (`Symbol.iterator in first` holds), a handler table (a plain object,
no `Symbol.iterator`), or a zero-argument producer function
(`typeof second === 'function'`). -/
inductive HandleArg : Type where
  | comp : Effectful → HandleArg
  | table : HandlerTable → HandleArg
  | thunk : (Unit → Effectful) → HandleArg

/-- The public `handle` of `core.ts` lines 262–267.  The TypeScript
overloads admit exactly three argument shapes; combinations outside them
are unreachable in typed code and are modelled as a `TypeError`. -/
def handle : HandleArg → HandleArg → Effectful
  | .comp c, .table h => _handle c h
  | .table h, .thunk t => _handle (t ()) h
  | .table h, .comp c => _handle c h
  | _, _ => .err .typeError

/-- Two-level union of handler tables, the `A ∪ B` of the
partial-handling-composition property: effect-name submaps are merged
pointwise, the right table winning on a shared (effect, operation) key
(last write wins, as in a plain mapping merge). -/
def unionTables (A B : HandlerTable) : HandlerTable :=
  fun eff =>
    match A eff, B eff with
    | none, sb => sb
    | some sa, none => some sa
    | some sa, some sb =>
      some fun cn =>
        match sb cn with
        | some e => some e
        | none => sa cn

/-- The (effect name, operation name) key sets of two handler tables are
disjoint. -/
def DisjointTables (A B : HandlerTable) : Prop :=
  ∀ a : Action, lookupHandler A a = none ∨ lookupHandler B a = none

/-- Every path through the computation — whatever resumption values its
consumer supplies at its suspensions — eventually completes normally with
result `v`. -/
def Effectful.EndsWith : Effectful → Value → Prop
  | .ret w, v => w = v
  | .err _, _ => False
  | .op _ k, v => ∀ u, Effectful.EndsWith (k u) v

/-- Every path through the computation eventually raises the exception
`e`. -/
def Effectful.EndsErr : Effectful → RuntimeError → Prop
  | .ret _, _ => False
  | .err e, e0 => e = e0
  | .op _ k, e0 => ∀ u, Effectful.EndsErr (k u) e0

/-- The computation's very next advance throws. -/
def Effectful.IsErr : Effectful → Prop
  | .err _ => True
  | _ => False

/-- The handler-body trace never calls a tactic. -/
def HandlerBody.NoTactics : HandlerBody → Prop
  | .ret _ => True
  | .yieldAct _ k => ∀ v, HandlerBody.NoTactics (k v)
  | .callResume _ _ => False
  | .callAbort _ _ => False

/-- On every path, the handler-body trace calls `abort v` as its one and
only tactic invocation (yields before or after the call are allowed). -/
def HandlerBody.AbortsWith : HandlerBody → Value → Prop
  | .callAbort w hc, v => w = v ∧ HandlerBody.NoTactics hc
  | .yieldAct _ k, v => ∀ u, HandlerBody.AbortsWith (k u) v
  | .ret _, _ => False
  | .callResume _ _, _ => False

/-- Every action the handler-body trace yields satisfies `P`. -/
def HandlerBody.YieldsIn (P : Action → Prop) : HandlerBody → Prop
  | .ret _ => True
  | .yieldAct a k => P a ∧ ∀ v, HandlerBody.YieldsIn P (k v)
  | .callResume _ hc => HandlerBody.YieldsIn P hc
  | .callAbort _ hc => HandlerBody.YieldsIn P hc

/-- The handler-body trace abides by the handler contract: starting from a
state where a tactic has (`called = true`) or has not (`called = false`)
already been invoked, every path invokes a tactic exactly once overall, and
every yielded action satisfies `P`. -/
def HandlerBody.Good (P : Action → Prop) : HandlerBody → Bool → Prop
  | .ret _, called => called = true
  | .yieldAct a k, called => P a ∧ ∀ v, HandlerBody.Good P (k v) called
  | .callResume _ hc, called => called = false ∧ HandlerBody.Good P hc true
  | .callAbort _ hc, called => called = false ∧ HandlerBody.Good P hc true

/-- Every outcome leaf of the body trace satisfies `S`. -/
def BodyTrace.Leaves (S : BodyOutcome → Prop) : BodyTrace → Prop
  | .done o => S o
  | .op _ k => ∀ v, BodyTrace.Leaves S (k v)

/-- Every action the body trace suspends with satisfies `P`. -/
def BodyTrace.Acts (P : Action → Prop) : BodyTrace → Prop
  | .done _ => True
  | .op a k => P a ∧ ∀ v, BodyTrace.Acts P (k v)

/-- Every action the computation can ever yield has a matching entry in the
table `T`. -/
def Effectful.Covered (T : HandlerTable) : Effectful → Prop
  | .ret _ => True
  | .err _ => True
  | .op a k => lookupHandler T a ≠ none ∧ ∀ v, Effectful.Covered T (k v)

/-- The computation is exception-free and handler-contract-abiding with
respect to handling first by table `A` and then by table `B`: it never
throws; every action matched by an operation-shaped entry of `A` carries a
parameter list whose handler-body trace is `Good` and yields no action
keyed in `B`; and every action matched (only) by an operation-shaped entry
of `B` carries a parameter list whose handler-body trace is `Good`. -/
def Effectful.SafeFor (A B : HandlerTable) : Effectful → Prop
  | .ret _ => True
  | .err _ => False
  | .op a k =>
    (match lookupHandler A a with
     | some (.fn f) => ∃ ps, a.parameters = some ps ∧
         HandlerBody.Good (fun b => lookupHandler B b = none) (f ps) false
     | some (.plain _) => True
     | none =>
       match lookupHandler B a with
       | some (.fn f) => ∃ ps, a.parameters = some ps ∧
           HandlerBody.Good (fun _ => True) (f ps) false
       | _ => True)
    ∧ ∀ v, Effectful.SafeFor A B (k v)

/-! Basic equations of `_handle`, one per branch of the dispatch loop. -/

@[simp]
theorem _handle_ret (v : Value) (H : HandlerTable) : _handle (.ret v) H = .ret v := rfl

@[simp]
theorem _handle_err (e : RuntimeError) (H : HandlerTable) : _handle (.err e) H = .err e := rfl

theorem _handle_forward {H : HandlerTable} {a : Action} (k : Value → Effectful)
    (h : lookupHandler H a = none) :
    _handle (.op a k) H = .op a fun v => _handle (k v) H := by
  rw [_handle, h]

theorem _handle_plain {H : HandlerTable} {a : Action} {w : Value} (k : Value → Effectful)
    (h : lookupHandler H a = some (.plain w)) :
    _handle (.op a k) H = _handle (k w) H := by
  rw [_handle, h]

theorem _handle_fn_noparams {H : HandlerTable} {a : Action} {f : List Value → HandlerBody}
    (k : Value → Effectful) (h : lookupHandler H a = some (.fn f))
    (hp : a.parameters = none) :
    _handle (.op a k) H = .err .typeError := by
  rw [_handle, h, hp]

theorem _handle_fn {H : HandlerTable} {a : Action} {f : List Value → HandlerBody}
    {ps : List Value} (k : Value → Effectful) (h : lookupHandler H a = some (.fn f))
    (hp : a.parameters = some ps) :
    _handle (.op a k) H = handleBody H a k (f ps) .unres := by
  rw [_handle, h, hp, handleBody]

/-! Lemmas about body traces and `runHandlerBody`. -/

@[simp]
theorem bind_done (o : BodyOutcome) (f : BodyOutcome → Effectful) :
    BodyTrace.bind (.done o) f = f o := rfl

@[simp]
theorem bind_op (a : Action) (k : Value → BodyTrace) (f : BodyOutcome → Effectful) :
    BodyTrace.bind (.op a k) f = .op a fun v => BodyTrace.bind (k v) f := rfl

theorem BodyTrace.bind_congr {S : BodyOutcome → Prop} {f g : BodyOutcome → Effectful}
    (tr : BodyTrace) (hl : tr.Leaves S) (hfg : ∀ o, S o → f o = g o) :
    tr.bind f = tr.bind g := by
  induction tr with
  | done o =>
    simp only [BodyTrace.Leaves] at hl
    exact hfg o hl
  | op a k ih =>
    simp only [BodyTrace.Leaves] at hl
    simp only [BodyTrace.bind]
    exact congrArg _ (funext fun v => ih v (hl v))

theorem BodyTrace.endsWith_bind {S : BodyOutcome → Prop} {f : BodyOutcome → Effectful}
    {v : Value} (tr : BodyTrace) (hl : tr.Leaves S)
    (hf : ∀ o, S o → (f o).EndsWith v) : (tr.bind f).EndsWith v := by
  induction tr with
  | done o =>
    simp only [BodyTrace.Leaves] at hl
    exact hf o hl
  | op a k ih =>
    simp only [BodyTrace.Leaves] at hl
    simp only [BodyTrace.bind, Effectful.EndsWith]
    exact fun u => ih u (hl u)

theorem BodyTrace.endsErr_bind {S : BodyOutcome → Prop} {f : BodyOutcome → Effectful}
    {e : RuntimeError} (tr : BodyTrace) (hl : tr.Leaves S)
    (hf : ∀ o, S o → (f o).EndsErr e) : (tr.bind f).EndsErr e := by
  induction tr with
  | done o =>
    simp only [BodyTrace.Leaves] at hl
    exact hf o hl
  | op a k ih =>
    simp only [BodyTrace.Leaves] at hl
    simp only [BodyTrace.bind, Effectful.EndsErr]
    exact fun u => ih u (hl u)

theorem BodyTrace.bind_not_isErr {S : BodyOutcome → Prop} {f : BodyOutcome → Effectful}
    (tr : BodyTrace) (hl : tr.Leaves S)
    (hf : ∀ o, S o → ¬ (f o).IsErr) : ¬ (tr.bind f).IsErr := by
  cases tr with
  | done o =>
    simp only [BodyTrace.Leaves] at hl
    exact hf o hl
  | op a k =>
    simp only [BodyTrace.bind, Effectful.IsErr]
    exact fun h => h

/-- After a tactic has been called, the tactics' closures never touch the
suspended computation again: `runHandlerBody` no longer depends on the
continuation `k` once the state is resolved. -/
theorem runHandlerBody_k_irrel (a : Action) :
    ∀ (hc : HandlerBody) (st : TacticState), st ≠ .unres →
      ∀ (k k' : Value → Effectful), runHandlerBody a k hc st = runHandlerBody a k' hc st := by
  intro hc
  induction hc with
  | ret w =>
    intro st hst k k'
    cases st <;> rfl
  | yieldAct a' kb ih =>
    intro st hst k k'
    simp only [runHandlerBody]
    exact congrArg _ (funext fun v => ih v st hst k k')
  | callResume v hc ih =>
    intro st hst k k'
    cases st with
    | unres => exact absurd rfl hst
    | resumedWith w => rfl
    | abortedWith w => rfl
  | callAbort v hc ih =>
    intro st hst k k'
    cases st with
    | unres => exact absurd rfl hst
    | resumedWith w => rfl
    | abortedWith w => rfl

/-- A trace that never calls a tactic, run from a fresh state, only reaches
`unresolvedO` leaves. -/
theorem runHandlerBody_noTactics_unres {a : Action} {k : Value → Effectful} :
    ∀ {hc : HandlerBody}, hc.NoTactics →
      (runHandlerBody a k hc .unres).Leaves (· = .unresolvedO) := by
  intro hc
  induction hc with
  | ret w =>
    intro _
    simp only [runHandlerBody, BodyTrace.Leaves]
  | yieldAct a' kb ih =>
    intro h
    simp only [HandlerBody.NoTactics] at h
    simp only [runHandlerBody, BodyTrace.Leaves]
    exact fun v => ih v (h v)
  | callResume v hc ih => exact fun h => absurd h (by simp [HandlerBody.NoTactics])
  | callAbort v hc ih => exact fun h => absurd h (by simp [HandlerBody.NoTactics])

/-- A trace that never calls a tactic, run after `abort v` has been called,
only reaches `abortO v` leaves. -/
theorem runHandlerBody_noTactics_aborted {a : Action} {k : Value → Effectful} {v : Value} :
    ∀ {hc : HandlerBody}, hc.NoTactics →
      (runHandlerBody a k hc (.abortedWith v)).Leaves (· = .abortO v) := by
  intro hc
  induction hc with
  | ret w =>
    intro _
    simp only [runHandlerBody, BodyTrace.Leaves]
  | yieldAct a' kb ih =>
    intro h
    simp only [HandlerBody.NoTactics] at h
    simp only [runHandlerBody, BodyTrace.Leaves]
    exact fun u => ih u (h u)
  | callResume w hc ih => exact fun h => absurd h (by simp [HandlerBody.NoTactics])
  | callAbort w hc ih => exact fun h => absurd h (by simp [HandlerBody.NoTactics])

/-- A trace whose only tactic call is `abort v`, run from a fresh state,
only reaches `abortO v` leaves. -/
theorem runHandlerBody_abortsWith {a : Action} {k : Value → Effectful} {v : Value} :
    ∀ {hc : HandlerBody}, hc.AbortsWith v →
      (runHandlerBody a k hc .unres).Leaves (· = .abortO v) := by
  intro hc
  induction hc with
  | ret w => exact fun h => absurd h (by simp [HandlerBody.AbortsWith])
  | yieldAct a' kb ih =>
    intro h
    simp only [HandlerBody.AbortsWith] at h
    simp only [runHandlerBody, BodyTrace.Leaves]
    exact fun u => ih u (h u)
  | callResume w hc ih => exact fun h => absurd h (by simp [HandlerBody.AbortsWith])
  | callAbort w hc ih =>
    intro h
    simp only [HandlerBody.AbortsWith] at h
    simp only [runHandlerBody]
    rw [h.1] at *
    exact runHandlerBody_noTactics_aborted h.2

/-- A trace whose only tactic call is `abort v` never consults the
suspended continuation at all. -/
theorem runHandlerBody_abortsWith_k_irrel {a : Action} {v : Value} :
    ∀ {hc : HandlerBody}, hc.AbortsWith v → ∀ (k k' : Value → Effectful),
      runHandlerBody a k hc .unres = runHandlerBody a k' hc .unres := by
  intro hc
  induction hc with
  | ret w => exact fun h => absurd h (by simp [HandlerBody.AbortsWith])
  | yieldAct a' kb ih =>
    intro h k k'
    simp only [HandlerBody.AbortsWith] at h
    simp only [runHandlerBody]
    exact congrArg _ (funext fun u => ih u (h u) k k')
  | callResume w hc ih => exact fun h => absurd h (by simp [HandlerBody.AbortsWith])
  | callAbort w hc ih =>
    intro h k k'
    simp only [runHandlerBody]
    exact runHandlerBody_k_irrel a hc (.abortedWith w) (by simp) k k'

/-- Whether a tactic has already been called in the given state. -/
def TacticState.called : TacticState → Bool
  | .unres => false
  | .resumedWith _ => true
  | .abortedWith _ => true

/-- Outcomes a contract-abiding handler body can end in. -/
def okOutcome (o : BodyOutcome) : Prop :=
  (∃ v, o = .abortO v) ∨ (∃ v, o = .resumeO v)

theorem HandlerBody.Good.yieldsIn {P : Action → Prop} :
    ∀ {hc : HandlerBody} {b : Bool}, HandlerBody.Good P hc b → hc.YieldsIn P := by
  intro hc
  induction hc with
  | ret w => intro b _; trivial
  | yieldAct a' kb ih =>
    intro b h
    simp only [HandlerBody.Good] at h
    exact ⟨h.1, fun v => ih v (h.2 v)⟩
  | callResume w hc ih =>
    intro b h
    simp only [HandlerBody.Good] at h
    exact ih h.2
  | callAbort w hc ih =>
    intro b h
    simp only [HandlerBody.Good] at h
    exact ih h.2

/-- Every action a body trace suspends with comes from a yield of the
handler body, so it inherits the body's yield predicate. -/
theorem runHandlerBody_acts {P : Action → Prop} {a : Action} {k : Value → Effectful} :
    ∀ {hc : HandlerBody} {st : TacticState}, hc.YieldsIn P →
      (runHandlerBody a k hc st).Acts P := by
  intro hc
  induction hc with
  | ret w => intro st _; cases st <;> simp [runHandlerBody, BodyTrace.Acts]
  | yieldAct a' kb ih =>
    intro st h
    simp only [HandlerBody.YieldsIn] at h
    simp only [runHandlerBody, BodyTrace.Acts]
    exact ⟨h.1, fun v => ih v (h.2 v)⟩
  | callResume w hc ih =>
    intro st h
    simp only [HandlerBody.YieldsIn] at h
    cases st with
    | unres =>
      simp only [runHandlerBody]
      cases hkv : k w <;> simp [BodyTrace.Acts, ih h]
    | resumedWith u => simp [runHandlerBody, BodyTrace.Acts]
    | abortedWith u => simp [runHandlerBody, BodyTrace.Acts]
  | callAbort w hc ih =>
    intro st h
    simp only [HandlerBody.YieldsIn] at h
    cases st with
    | unres => simp only [runHandlerBody]; exact ih h
    | resumedWith u => simp [runHandlerBody, BodyTrace.Acts]
    | abortedWith u => simp [runHandlerBody, BodyTrace.Acts]

/-- Running a contract-abiding body against a continuation that never
throws only reaches `abortO` or `resumeO` leaves: no `HandleError` is
raised and the tactic state never stays unresolved. -/
theorem runHandlerBody_good_leaves {P : Action → Prop} {a : Action} {k : Value → Effectful}
    (hk : ∀ v, ¬ (k v).IsErr) :
    ∀ {hc : HandlerBody} {st : TacticState}, HandlerBody.Good P hc st.called →
      (runHandlerBody a k hc st).Leaves okOutcome := by
  intro hc
  induction hc with
  | ret w =>
    intro st h
    simp only [HandlerBody.Good] at h
    cases st with
    | unres => simp [TacticState.called] at h
    | resumedWith u => exact Or.inr ⟨u, rfl⟩
    | abortedWith u => exact Or.inl ⟨u, rfl⟩
  | yieldAct a' kb ih =>
    intro st h
    simp only [HandlerBody.Good] at h
    simp only [runHandlerBody, BodyTrace.Leaves]
    exact fun v => ih v (h.2 v)
  | callResume w hc ih =>
    intro st h
    simp only [HandlerBody.Good] at h
    cases st with
    | unres =>
      simp only [runHandlerBody]
      cases hkv : k w with
      | err e => exact absurd (by rw [hkv]; trivial) (hk w)
      | ret u => exact @ih (.resumedWith w) h.2
      | op a2 k2 => exact @ih (.resumedWith w) h.2
    | resumedWith u => simp [TacticState.called] at h
    | abortedWith u => simp [TacticState.called] at h
  | callAbort w hc ih =>
    intro st h
    simp only [HandlerBody.Good] at h
    cases st with
    | unres =>
      simp only [runHandlerBody]
      exact @ih (.abortedWith w) h.2
    | resumedWith u => simp [TacticState.called] at h
    | abortedWith u => simp [TacticState.called] at h

/-- A computation satisfying `SafeFor` does not throw on its next advance. -/
theorem Effectful.SafeFor.not_isErr {A B : HandlerTable} :
    ∀ {c : Effectful}, c.SafeFor A B → ¬ c.IsErr := by
  intro c h
  cases c with
  | ret v => simp [Effectful.IsErr]
  | err e => exact absurd h (by simp [Effectful.SafeFor])
  | op a k => simp [Effectful.IsErr]

/-- Handling a `SafeFor` computation by the first table never throws on
its next advance: contract-abiding handlers raise no `HandleError`. -/
theorem _handle_safe_not_isErr {A B : HandlerTable} :
    ∀ {c : Effectful}, c.SafeFor A B → ¬ (_handle c A).IsErr := by
  intro c
  induction c with
  | ret v => intro _; simp [Effectful.IsErr]
  | err e => intro h; exact absurd h (by simp [Effectful.SafeFor])
  | op a k ih =>
    intro h
    simp only [Effectful.SafeFor] at h
    cases hA : lookupHandler A a with
    | none => rw [_handle_forward k hA]; simp [Effectful.IsErr]
    | some entry =>
      cases entry with
      | plain w =>
        rw [_handle_plain k hA]
        exact ih w (h.2 w)
      | fn f =>
        rw [hA] at h
        obtain ⟨⟨ps, hps, hgood⟩, hrec⟩ := h
        rw [_handle_fn k hA hps, handleBody]
        refine BodyTrace.bind_not_isErr _
          (runHandlerBody_good_leaves (fun v => (hrec v).not_isErr) hgood) ?_
        intro o ho
        cases ho with
        | inl hv => obtain ⟨v, rfl⟩ := hv; simp [applyOutcome, Effectful.IsErr]
        | inr hv => obtain ⟨v, rfl⟩ := hv; simpa [applyOutcome] using ih v (hrec v)

/-- Handling a trace whose suspended actions all miss the table `Bt`
forwards them untouched, so handling commutes with grafting. -/
theorem _handle_bind_commute {Bt : HandlerTable} {f : BodyOutcome → Effectful} :
    ∀ {tr : BodyTrace}, tr.Acts (fun b => lookupHandler Bt b = none) →
      _handle (tr.bind f) Bt = tr.bind fun o => _handle (f o) Bt := by
  intro tr
  induction tr with
  | done o => intro _; rfl
  | op a2 k2 ih =>
    intro h
    simp only [BodyTrace.Acts] at h
    simp only [BodyTrace.bind]
    rw [_handle_forward _ h.1]
    exact congrArg _ (funext fun v => ih v (h.2 v))

/-- An entry present in the left table and absent from the right one is
found unchanged in the union. -/
theorem unionTables_lookup_left {A B : HandlerTable} {a : Action} {e : HandlerEntry}
    (hA : lookupHandler A a = some e) (hB : lookupHandler B a = none) :
    lookupHandler (unionTables A B) a = some e := by
  simp only [lookupHandler, unionTables] at *
  cases hA2 : A a.effectName with
  | none => simp [hA2] at hA
  | some sa =>
    simp only [hA2] at hA
    cases hB2 : B a.effectName with
    | none => simp [hA]
    | some sb =>
      simp only [hB2] at hB
      simp [hB, hA]

/-- Looking up a key absent from the left table in the union is looking it
up in the right table. -/
theorem unionTables_lookup_right {A B : HandlerTable} {a : Action}
    (hA : lookupHandler A a = none) :
    lookupHandler (unionTables A B) a = lookupHandler B a := by
  simp only [lookupHandler, unionTables] at *
  cases hA2 : A a.effectName with
  | none => cases hB2 : B a.effectName <;> simp
  | some sa =>
    simp only [hA2] at hA
    cases hB2 : B a.effectName with
    | none => simp [hA]
    | some sb => cases hsb : sb a.constructorName <;> simp [hsb, hA]

/-! Claim theorems. -/

/-- C1 — Forwarding: for every action whose (effectName, constructorName)
pair is absent from the handler table, `_handle(computation, table)`
suspends with that same action unchanged, and the resumption value `v` its
consumer supplies is fed back as the original computation's resumption
value on its next advance (the continuation is `_handle (k v) H`). -/
theorem forwarding_unmatched (H : HandlerTable) (a : Action) (k : Value → Effectful)
    (h : lookupHandler H a = none) :
    _handle (.op a k) H = .op a fun v => _handle (k v) H :=
  _handle_forward k h

theorem forwarding_unmatched_witness :
    lookupHandler (fun _ => none) ⟨"Console", "readLine", some []⟩ = none ∧
    _handle (.op ⟨"Console", "readLine", some []⟩ Effectful.ret) (fun _ => none) =
      .op ⟨"Console", "readLine", some []⟩ fun v =>
        _handle (Effectful.ret v) (fun _ => none) :=
  ⟨rfl, forwarding_unmatched (fun _ => none) ⟨"Console", "readLine", some []⟩
    Effectful.ret rfl⟩

/-- C2 — Abort short-circuits: if the matched operation-shaped entry's body
calls `abort v` as its single tactic invocation, the computation returned
by `_handle` completes with `v` on every path, and the original
computation's continuation is never advanced again — the result does not
depend on it at all, however many suspensions remain in it. -/
theorem abort_short_circuits (H : HandlerTable) (a : Action)
    (f : List Value → HandlerBody) (ps : List Value) (v : Value)
    (k : Value → Effectful)
    (hH : lookupHandler H a = some (.fn f)) (hp : a.parameters = some ps)
    (hab : (f ps).AbortsWith v) :
    (_handle (.op a k) H).EndsWith v ∧
      ∀ k' : Value → Effectful, _handle (.op a k) H = _handle (.op a k') H := by
  constructor
  · rw [_handle_fn k hH hp, handleBody]
    refine BodyTrace.endsWith_bind _ (runHandlerBody_abortsWith hab) ?_
    intro o ho
    subst ho
    simp [applyOutcome, Effectful.EndsWith]
  · intro k'
    rw [_handle_fn k hH hp, _handle_fn k' hH hp, handleBody, handleBody,
      runHandlerBody_abortsWith_k_irrel hab k k']
    refine BodyTrace.bind_congr _ (@runHandlerBody_abortsWith a k' v (f ps) hab) ?_
    intro o ho
    subst ho
    rfl

theorem abort_short_circuits_witness :
    HandlerBody.AbortsWith (.callAbort (.vNat 9) (.ret .vUndef)) (.vNat 9) ∧
    ((_handle (.op ⟨"E", "op1", some []⟩ Effectful.ret)
        (fun _ => some fun _ =>
          some (.fn fun _ => .callAbort (.vNat 9) (.ret .vUndef)))).EndsWith (.vNat 9) ∧
      ∀ k' : Value → Effectful,
        _handle (.op ⟨"E", "op1", some []⟩ Effectful.ret)
          (fun _ => some fun _ =>
            some (.fn fun _ => .callAbort (.vNat 9) (.ret .vUndef))) =
        _handle (.op ⟨"E", "op1", some []⟩ k')
          (fun _ => some fun _ =>
            some (.fn fun _ => .callAbort (.vNat 9) (.ret .vUndef)))) :=
  ⟨by simp [HandlerBody.AbortsWith, HandlerBody.NoTactics],
    abort_short_circuits _ ⟨"E", "op1", some []⟩ _ [] (.vNat 9) Effectful.ret rfl rfl
      (by simp [HandlerBody.AbortsWith, HandlerBody.NoTactics])⟩

/-- C4 — Tactic never invoked is fatal: if the matched operation-shaped
entry's body returns (and its nested computation fully resolves) without
`resume` or `abort` ever having been called, every path of the returned
computation raises the `HandleError` carrying the offending action and the
missing-tactic reason, rather than continuing or completing normally. -/
theorem missing_tactic_errors (H : HandlerTable) (a : Action)
    (f : List Value → HandlerBody) (ps : List Value) (k : Value → Effectful)
    (hH : lookupHandler H a = some (.fn f)) (hp : a.parameters = some ps)
    (hnt : (f ps).NoTactics) :
    (_handle (.op a k) H).EndsErr (.handleError a missingTacticReason) := by
  rw [_handle_fn k hH hp, handleBody]
  refine BodyTrace.endsErr_bind _ (runHandlerBody_noTactics_unres hnt) ?_
  intro o ho
  subst ho
  simp [applyOutcome, Effectful.EndsErr]

theorem missing_tactic_errors_witness :
    HandlerBody.NoTactics (.ret .vUndef) ∧
    (_handle (.op ⟨"E", "op2", some []⟩ Effectful.ret)
        (fun _ => some fun _ => some (.fn fun _ => .ret .vUndef))).EndsErr
      (.handleError ⟨"E", "op2", some []⟩ missingTacticReason) :=
  ⟨trivial,
    missing_tactic_errors _ ⟨"E", "op2", some []⟩ _ [] Effectful.ret rfl rfl trivial⟩

/-- C5 — Double-tactic rejection: for one action occurrence, a first
`resume` (when the resumed computation does not itself throw) and a first
`abort` raise nothing — handling simply continues from the corresponding
resolved state; and any second tactic call, in all four combinations,
makes the result computation raise the double-invocation `HandleError`
carrying the offending action at the moment of that second call, the rest
of the entry's body being discarded. -/
theorem double_tactic_rejection (H : HandlerTable) (a : Action)
    (f : List Value → HandlerBody) (ps : List Value) (k : Value → Effectful)
    (v w : Value) (hc : HandlerBody)
    (hH : lookupHandler H a = some (.fn f)) (hp : a.parameters = some ps) :
    ((∀ e, k v ≠ .err e) → f ps = .callResume v hc →
      _handle (.op a k) H = handleBody H a k hc (.resumedWith v)) ∧
    (f ps = .callAbort v hc →
      _handle (.op a k) H = handleBody H a k hc (.abortedWith v)) ∧
    handleBody H a k (.callResume w hc) (.resumedWith v) =
      .err (.handleError a doubleTacticReason) ∧
    handleBody H a k (.callAbort w hc) (.resumedWith v) =
      .err (.handleError a doubleTacticReason) ∧
    handleBody H a k (.callResume w hc) (.abortedWith v) =
      .err (.handleError a doubleTacticReason) ∧
    handleBody H a k (.callAbort w hc) (.abortedWith v) =
      .err (.handleError a doubleTacticReason) := by
  refine ⟨?_, ?_, rfl, rfl, rfl, rfl⟩
  · intro hkv hf
    rw [_handle_fn k hH hp, hf, handleBody, handleBody]
    congr 1
    cases hk2 : k v with
    | err e => exact absurd hk2 (hkv e)
    | ret u => simp [runHandlerBody, hk2]
    | op a2 k2 => simp [runHandlerBody, hk2]
  · intro hf
    rw [_handle_fn k hH hp, hf, handleBody, handleBody]
    simp [runHandlerBody]

theorem double_tactic_rejection_witness :
    (∀ e, Effectful.ret (.vNat 1) ≠ .err e) ∧
    ((fun _ : List Value => HandlerBody.callResume (.vNat 1)
        (.callResume (.vNat 2) (.ret .vUndef))) [] =
      .callResume (.vNat 1) (.callResume (.vNat 2) (.ret .vUndef))) ∧
    (((∀ e, Effectful.ret (.vNat 1) ≠ .err e) →
      (fun _ : List Value => HandlerBody.callResume (.vNat 1)
          (.callResume (.vNat 2) (.ret .vUndef))) [] =
        .callResume (.vNat 1) (.callResume (.vNat 2) (.ret .vUndef)) →
      _handle (.op ⟨"E", "op3", some []⟩ Effectful.ret)
          (fun _ => some fun _ => some (.fn fun _ =>
            .callResume (.vNat 1) (.callResume (.vNat 2) (.ret .vUndef)))) =
        handleBody (fun _ => some fun _ => some (.fn fun _ =>
            .callResume (.vNat 1) (.callResume (.vNat 2) (.ret .vUndef))))
          ⟨"E", "op3", some []⟩ Effectful.ret
          (.callResume (.vNat 2) (.ret .vUndef)) (.resumedWith (.vNat 1))) ∧
    ((fun _ : List Value => HandlerBody.callResume (.vNat 1)
          (.callResume (.vNat 2) (.ret .vUndef))) [] =
        .callAbort (.vNat 1) (.callResume (.vNat 2) (.ret .vUndef)) →
      _handle (.op ⟨"E", "op3", some []⟩ Effectful.ret)
          (fun _ => some fun _ => some (.fn fun _ =>
            .callResume (.vNat 1) (.callResume (.vNat 2) (.ret .vUndef)))) =
        handleBody (fun _ => some fun _ => some (.fn fun _ =>
            .callResume (.vNat 1) (.callResume (.vNat 2) (.ret .vUndef))))
          ⟨"E", "op3", some []⟩ Effectful.ret
          (.callResume (.vNat 2) (.ret .vUndef)) (.abortedWith (.vNat 1))) ∧
    handleBody (fun _ => some fun _ => some (.fn fun _ =>
          .callResume (.vNat 1) (.callResume (.vNat 2) (.ret .vUndef))))
        ⟨"E", "op3", some []⟩ Effectful.ret
        (.callResume (.vNat 2) (.ret .vUndef)) (.resumedWith (.vNat 1)) =
      .err (.handleError ⟨"E", "op3", some []⟩ doubleTacticReason) ∧
    handleBody (fun _ => some fun _ => some (.fn fun _ =>
          .callResume (.vNat 1) (.callResume (.vNat 2) (.ret .vUndef))))
        ⟨"E", "op3", some []⟩ Effectful.ret
        (.callAbort (.vNat 2) (.ret .vUndef)) (.resumedWith (.vNat 1)) =
      .err (.handleError ⟨"E", "op3", some []⟩ doubleTacticReason) ∧
    handleBody (fun _ => some fun _ => some (.fn fun _ =>
          .callResume (.vNat 1) (.callResume (.vNat 2) (.ret .vUndef))))
        ⟨"E", "op3", some []⟩ Effectful.ret
        (.callResume (.vNat 2) (.ret .vUndef)) (.abortedWith (.vNat 1)) =
      .err (.handleError ⟨"E", "op3", some []⟩ doubleTacticReason) ∧
    handleBody (fun _ => some fun _ => some (.fn fun _ =>
          .callResume (.vNat 1) (.callResume (.vNat 2) (.ret .vUndef))))
        ⟨"E", "op3", some []⟩ Effectful.ret
        (.callAbort (.vNat 2) (.ret .vUndef)) (.abortedWith (.vNat 1)) =
      .err (.handleError ⟨"E", "op3", some []⟩ doubleTacticReason)) :=
  ⟨fun e h => by simp at h, rfl,
    double_tactic_rejection
      (fun _ => some fun _ => some (.fn fun _ =>
        .callResume (.vNat 1) (.callResume (.vNat 2) (.ret .vUndef))))
      ⟨"E", "op3", some []⟩
      (fun _ => .callResume (.vNat 1) (.callResume (.vNat 2) (.ret .vUndef)))
      [] Effectful.ret (.vNat 1) (.vNat 2)
      (.callResume (.vNat 2) (.ret .vUndef)) rfl rfl⟩

/-- C3 — Nested handler bodies: a suspension of the matched entry's nested
computation is forwarded through the returned computation exactly as an
unmatched action is — unchanged and without consulting the table — and the
consumer's resumption value is fed to the nested computation; the nested
computation's final return value is discarded (the result is the same for
any return value); and its mere completion never advances the original
computation: from an unresolved state completion is an error, and after
`resume v` the loop continues on `computation.next(v)` — the tactic's
value, not the nested computation's. -/
theorem nested_handler_forwarding (H : HandlerTable) (a a2 : Action)
    (f : List Value → HandlerBody) (ps : List Value) (k : Value → Effectful)
    (k2 : Value → HandlerBody) (st : TacticState) (w w2 v : Value)
    (hH : lookupHandler H a = some (.fn f)) (hp : a.parameters = some ps) :
    (f ps = .yieldAct a2 k2 →
      _handle (.op a k) H = .op a2 fun u => handleBody H a k (k2 u) .unres) ∧
    (handleBody H a k (.yieldAct a2 k2) st =
      .op a2 fun u => handleBody H a k (k2 u) st) ∧
    handleBody H a k (.ret w) st = handleBody H a k (.ret w2) st ∧
    handleBody H a k (.ret w) (.resumedWith v) = _handle (k v) H ∧
    handleBody H a k (.ret w) .unres = .err (.handleError a missingTacticReason) := by
  refine ⟨?_, ?_, ?_, rfl, rfl⟩
  · intro hf
    rw [_handle_fn k hH hp, hf, handleBody]
    simp [runHandlerBody, handleBody]
  · rw [handleBody]
    simp [runHandlerBody, handleBody]
  · cases st <;> rfl

theorem nested_handler_forwarding_witness :
    ((fun _ : List Value => HandlerBody.yieldAct ⟨"F", "op5", some []⟩ fun _ =>
        .callResume .vUndef (.ret .vUndef)) [] =
      .yieldAct ⟨"F", "op5", some []⟩ (fun _ =>
        .callResume .vUndef (.ret .vUndef)) →
      _handle (.op ⟨"E", "op4", some []⟩ Effectful.ret)
          (fun _ => some fun _ => some (.fn fun _ =>
            .yieldAct ⟨"F", "op5", some []⟩ fun _ =>
              .callResume .vUndef (.ret .vUndef))) =
        .op ⟨"F", "op5", some []⟩ fun u =>
          handleBody (fun _ => some fun _ => some (.fn fun _ =>
              .yieldAct ⟨"F", "op5", some []⟩ fun _ =>
                .callResume .vUndef (.ret .vUndef)))
            ⟨"E", "op4", some []⟩ Effectful.ret
            ((fun _ : Value => HandlerBody.callResume .vUndef (.ret .vUndef)) u)
            .unres) ∧
    (handleBody (fun _ => some fun _ => some (.fn fun _ =>
          .yieldAct ⟨"F", "op5", some []⟩ fun _ =>
            .callResume .vUndef (.ret .vUndef)))
        ⟨"E", "op4", some []⟩ Effectful.ret
        (.yieldAct ⟨"F", "op5", some []⟩ fun _ =>
          .callResume .vUndef (.ret .vUndef)) .unres =
      .op ⟨"F", "op5", some []⟩ fun u =>
        handleBody (fun _ => some fun _ => some (.fn fun _ =>
            .yieldAct ⟨"F", "op5", some []⟩ fun _ =>
              .callResume .vUndef (.ret .vUndef)))
          ⟨"E", "op4", some []⟩ Effectful.ret
          ((fun _ : Value => HandlerBody.callResume .vUndef (.ret .vUndef)) u)
          .unres) ∧
    handleBody (fun _ => some fun _ => some (.fn fun _ =>
          .yieldAct ⟨"F", "op5", some []⟩ fun _ =>
            .callResume .vUndef (.ret .vUndef)))
        ⟨"E", "op4", some []⟩ Effectful.ret (.ret (.vNat 3)) .unres =
      handleBody (fun _ => some fun _ => some (.fn fun _ =>
          .yieldAct ⟨"F", "op5", some []⟩ fun _ =>
            .callResume .vUndef (.ret .vUndef)))
        ⟨"E", "op4", some []⟩ Effectful.ret (.ret (.vNat 7)) .unres ∧
    handleBody (fun _ => some fun _ => some (.fn fun _ =>
          .yieldAct ⟨"F", "op5", some []⟩ fun _ =>
            .callResume .vUndef (.ret .vUndef)))
        ⟨"E", "op4", some []⟩ Effectful.ret (.ret (.vNat 3))
        (.resumedWith (.vNat 6)) =
      _handle (Effectful.ret (.vNat 6))
        (fun _ => some fun _ => some (.fn fun _ =>
          .yieldAct ⟨"F", "op5", some []⟩ fun _ =>
            .callResume .vUndef (.ret .vUndef))) ∧
    handleBody (fun _ => some fun _ => some (.fn fun _ =>
          .yieldAct ⟨"F", "op5", some []⟩ fun _ =>
            .callResume .vUndef (.ret .vUndef)))
        ⟨"E", "op4", some []⟩ Effectful.ret (.ret (.vNat 3)) .unres =
      .err (.handleError ⟨"E", "op4", some []⟩ missingTacticReason) :=
  nested_handler_forwarding
    (fun _ => some fun _ => some (.fn fun _ =>
      .yieldAct ⟨"F", "op5", some []⟩ fun _ =>
        .callResume .vUndef (.ret .vUndef)))
    ⟨"E", "op4", some []⟩ ⟨"F", "op5", some []⟩
    (fun _ => .yieldAct ⟨"F", "op5", some []⟩ fun _ =>
      .callResume .vUndef (.ret .vUndef))
    [] Effectful.ret
    (fun _ => .callResume .vUndef (.ret .vUndef))
    .unres (.vNat 3) (.vNat 7) (.vNat 6) rfl rfl

/-- C10 — Abort does not suppress a nested handler body: when the matched
entry calls `abort v` and its body goes on to yield (a nested computation
remains), that suspension is still forwarded through the returned
computation, the consumer's answer is fed to the nested computation, and
only once the nested body has fully resolved without further tactic calls
does the returned computation complete with the aborted value `v`. -/
theorem abort_keeps_nested_body (H : HandlerTable) (a a2 : Action)
    (f : List Value → HandlerBody) (ps : List Value) (k : Value → Effectful)
    (k2 : Value → HandlerBody) (v : Value) (hc : HandlerBody)
    (hH : lookupHandler H a = some (.fn f)) (hp : a.parameters = some ps) :
    (f ps = .callAbort v (.yieldAct a2 k2) →
      _handle (.op a k) H =
        .op a2 fun u => handleBody H a k (k2 u) (.abortedWith v)) ∧
    (hc.NoTactics → (handleBody H a k hc (.abortedWith v)).EndsWith v) := by
  constructor
  · intro hf
    rw [_handle_fn k hH hp, hf, handleBody]
    simp [runHandlerBody, handleBody]
  · intro hnt
    rw [handleBody]
    refine BodyTrace.endsWith_bind _ (runHandlerBody_noTactics_aborted hnt) ?_
    intro o ho
    subst ho
    simp [applyOutcome, Effectful.EndsWith]

theorem abort_keeps_nested_body_witness :
    ((fun _ : List Value => HandlerBody.callAbort (.vNat 5)
        (.yieldAct ⟨"F", "op7", some []⟩ fun _ => .ret .vUndef)) [] =
      .callAbort (.vNat 5)
        (.yieldAct ⟨"F", "op7", some []⟩ fun _ => .ret .vUndef) →
      _handle (.op ⟨"E", "op6", some []⟩ Effectful.ret)
          (fun _ => some fun _ => some (.fn fun _ =>
            .callAbort (.vNat 5)
              (.yieldAct ⟨"F", "op7", some []⟩ fun _ => .ret .vUndef))) =
        .op ⟨"F", "op7", some []⟩ fun u =>
          handleBody (fun _ => some fun _ => some (.fn fun _ =>
              .callAbort (.vNat 5)
                (.yieldAct ⟨"F", "op7", some []⟩ fun _ => .ret .vUndef)))
            ⟨"E", "op6", some []⟩ Effectful.ret
            ((fun _ : Value => HandlerBody.ret Value.vUndef) u)
            (.abortedWith (.vNat 5))) ∧
    (HandlerBody.NoTactics (.ret .vUndef) →
      (handleBody (fun _ => some fun _ => some (.fn fun _ =>
            .callAbort (.vNat 5)
              (.yieldAct ⟨"F", "op7", some []⟩ fun _ => .ret .vUndef)))
          ⟨"E", "op6", some []⟩ Effectful.ret (.ret .vUndef)
          (.abortedWith (.vNat 5))).EndsWith (.vNat 5)) :=
  abort_keeps_nested_body
    (fun _ => some fun _ => some (.fn fun _ =>
      .callAbort (.vNat 5)
        (.yieldAct ⟨"F", "op7", some []⟩ fun _ => .ret .vUndef)))
    ⟨"E", "op6", some []⟩ ⟨"F", "op7", some []⟩
    (fun _ => .callAbort (.vNat 5)
      (.yieldAct ⟨"F", "op7", some []⟩ fun _ => .ret .vUndef))
    [] Effectful.ret (fun _ => .ret .vUndef) (.vNat 5) (.ret .vUndef) rfl rfl

/-- C6 counterexample — the claim as stated is false: driving the
value-shaped (iteration-protocol) computation of `createEffect "Console"`
for operation `readLine` does not suspend with an action whose
`parameters` field is the empty sequence `[]` — the source builds the
action without a `parameters` property at all. -/
theorem value_creator_params_cex :
    ¬ ∃ k : Value → Effectful,
        (createEffect "Console" "readLine").iter =
          .op ⟨"Console", "readLine", some []⟩ k := by
  rintro ⟨k, h⟩
  simp only [createEffect] at h
  rw [Effectful.op.injEq, Action.mk.injEq] at h
  simpa using h.1

/-- C6 amended — Value-shaped action creator: for every effect namespace
produced by `createEffect effectName` and every operation name, the
computation obtained via the namespace property's iteration protocol
suspends exactly once with an action whose `effectName` and
`constructorName` match and whose `parameters` field is absent
(`undefined`, modelled as `none`) — not the empty sequence — and then
completes with the resumption value supplied. -/
theorem value_creator_suspends_without_params (eN cN : String) :
    (createEffect eN cN).iter = .op ⟨eN, cN, none⟩ Effectful.ret := rfl

/-- C7 — Operation-shaped action creator: for every effect namespace
produced by `createEffect effectName`, operation name and argument list,
calling the namespace's callable returns a fresh computation that, when
advanced once, suspends with exactly the action carrying those arguments
in order, and, when advanced a second time with a resumption value,
completes with exactly that resumption value (its continuation is
`Effectful.ret`). -/
theorem operation_creator_roundtrip (eN cN : String) (ps : List Value) :
    (createEffect eN cN).call ps = .op ⟨eN, cN, some ps⟩ Effectful.ret := rfl

/-- C9 — Call-form symmetry: for every computation `c` and handler table
`h`, the three invocations `handle(c, h)`, `handle(h, c)` and
`handle(h, () => c)` all denote exactly `_handle(c, h)`, hence have
identical observable behaviour. -/
theorem handle_call_forms (c : Effectful) (h : HandlerTable) :
    handle (.comp c) (.table h) = _handle c h ∧
    handle (.table h) (.comp c) = _handle c h ∧
    handle (.table h) (.thunk fun _ => c) = _handle c h :=
  ⟨rfl, rfl, rfl⟩

/-- As long as the suspended continuation never throws when resumed, the
body trace does not depend on which such continuation is installed: the
continuation is only consulted for the exception check inside `resume`. -/
theorem runHandlerBody_k_congr {a : Action} {k k' : Value → Effectful}
    (hk : ∀ v, ¬ (k v).IsErr) (hk' : ∀ v, ¬ (k' v).IsErr) :
    ∀ (hc : HandlerBody) (st : TacticState),
      runHandlerBody a k hc st = runHandlerBody a k' hc st := by
  intro hc
  induction hc with
  | ret w => intro st; cases st <;> rfl
  | yieldAct a2 kb ih =>
    intro st
    simp only [runHandlerBody]
    exact congrArg _ (funext fun v => ih v st)
  | callResume v hc ih =>
    intro st
    cases st with
    | unres =>
      simp only [runHandlerBody]
      cases h1 : k v with
      | err e => exact absurd (by rw [h1]; trivial) (hk v)
      | ret u =>
        cases h2 : k' v with
        | err e => exact absurd (by rw [h2]; trivial) (hk' v)
        | ret u2 => exact ih (.resumedWith v)
        | op a3 k3 => exact ih (.resumedWith v)
      | op a3 k3 =>
        cases h2 : k' v with
        | err e => exact absurd (by rw [h2]; trivial) (hk' v)
        | ret u2 => exact ih (.resumedWith v)
        | op a4 k4 => exact ih (.resumedWith v)
    | resumedWith u => rfl
    | abortedWith u => rfl
  | callAbort v hc ih =>
    intro st
    cases st with
    | unres => simp only [runHandlerBody]; exact ih (.abortedWith v)
    | resumedWith u => rfl
    | abortedWith u => rfl

/-- C8 amended — Partial-handling composition: for a computation whose
actions' keys are all covered by the union of two handler tables with
disjoint keys, handling with `A` and then with `B` equals handling once
with the two-level union of `A` and `B` — provided the computation is
exception-free and contract-abiding for the two tables (`SafeFor`): its
operation-shaped handler bodies each invoke exactly one tactic, matched
actions carry parameter lists, and no action yielded by a handler body of
`A` has its key in `B`. -/
theorem compose_handlers_union (A B : HandlerTable) (hdisj : DisjointTables A B)
    (c : Effectful) (hcov : c.Covered (unionTables A B)) (hsafe : c.SafeFor A B) :
    _handle (_handle c A) B = _handle c (unionTables A B) := by
  induction c with
  | ret v => rfl
  | err e => rfl
  | op a k ih =>
    simp only [Effectful.Covered] at hcov
    simp only [Effectful.SafeFor] at hsafe
    obtain ⟨hcov1, hcovr⟩ := hcov
    obtain ⟨hm, hsafer⟩ := hsafe
    cases hA : lookupHandler A a with
    | some entry =>
      have hB : lookupHandler B a = none := by
        cases hdisj a with
        | inl h => rw [h] at hA; exact absurd hA (by simp)
        | inr h => exact h
      have hU : lookupHandler (unionTables A B) a = some entry :=
        unionTables_lookup_left hA hB
      cases entry with
      | plain w =>
        rw [_handle_plain k hA, _handle_plain k hU]
        exact ih w (hcovr w) (hsafer w)
      | fn f =>
        simp only [hA] at hm
        obtain ⟨ps, hps, hgood⟩ := hm
        rw [_handle_fn k hA hps, _handle_fn k hU hps, handleBody, handleBody,
          _handle_bind_commute (runHandlerBody_acts hgood.yieldsIn)]
        refine BodyTrace.bind_congr _
          (runHandlerBody_good_leaves (fun v => (hsafer v).not_isErr) hgood) ?_
        intro o ho
        cases ho with
        | inl hv => obtain ⟨v, rfl⟩ := hv; rfl
        | inr hv =>
          obtain ⟨v, rfl⟩ := hv
          exact ih v (hcovr v) (hsafer v)
    | none =>
      have hU : lookupHandler (unionTables A B) a = lookupHandler B a :=
        unionTables_lookup_right hA
      rw [_handle_forward k hA]
      cases hB : lookupHandler B a with
      | none => rw [hB] at hU; exact absurd hU hcov1
      | some entry =>
        rw [hB] at hU
        cases entry with
        | plain w =>
          rw [_handle_plain _ hB, _handle_plain k hU]
          exact ih w (hcovr w) (hsafer w)
        | fn f =>
          simp only [hA, hB] at hm
          obtain ⟨ps, hps, hgood⟩ := hm
          rw [_handle_fn _ hB hps, _handle_fn k hU hps, handleBody, handleBody,
            runHandlerBody_k_congr
              (fun v => _handle_safe_not_isErr (hsafer v))
              (fun v => (hsafer v).not_isErr) (f ps) .unres]
          refine BodyTrace.bind_congr _
            (runHandlerBody_good_leaves (fun v => (hsafer v).not_isErr) hgood) ?_
          intro o ho
          cases ho with
          | inl hv => obtain ⟨v, rfl⟩ := hv; rfl
          | inr hv =>
            obtain ⟨v, rfl⟩ := hv
            exact ih v (hcovr v) (hsafer v)

/-- Computation for the C8 counterexample: suspend once with `E.op1`, then
complete with the resumption value. -/
def cexComp : Effectful := .op ⟨"E", "op1", some []⟩ Effectful.ret

/-- Left table for the C8 counterexample: its `E.op1` entry's body yields
the action `F.op2` — whose key lies in the right table — and then resumes
with `0`. -/
def cexA : HandlerTable := fun eff =>
  if eff = "E" then
    some fun cn =>
      if cn = "op1" then
        some (.fn fun _ =>
          .yieldAct ⟨"F", "op2", some []⟩ fun _ =>
            .callResume (.vNat 0) (.ret .vUndef))
      else none
  else none

/-- Right table for the C8 counterexample: `F.op2` resumes with `42`. -/
def cexB : HandlerTable := fun eff =>
  if eff = "F" then
    some fun cn =>
      if cn = "op2" then
        some (.fn fun _ => .callResume (.vNat 42) (.ret .vUndef))
      else none
  else none

/-- C8 counterexample — the claim as stated is false: `cexA` and `cexB`
have disjoint keys and every action of `cexComp` is covered by their
union, yet handling in two stages differs observably from handling once
with the union: in two stages the nested body's `F.op2` suspension is
intercepted by `cexB` and the result completes immediately, while with
the union table that suspension is forwarded to the consumer. -/
theorem compose_handlers_cex :
    DisjointTables cexA cexB ∧
    Effectful.Covered (unionTables cexA cexB) cexComp ∧
    _handle (_handle cexComp cexA) cexB ≠ _handle cexComp (unionTables cexA cexB) := by
  refine ⟨?_, ?_, ?_⟩
  · intro a
    by_cases h : a.effectName = "E"
    · right
      simp [lookupHandler, cexB, h]
    · left
      simp [lookupHandler, cexA, h]
  · refine ⟨?_, fun v => trivial⟩
    simp [lookupHandler, unionTables, cexA, cexB, cexComp]
  · have hL : _handle (_handle cexComp cexA) cexB = .ret (.vNat 0) := by
      simp [cexComp, cexA, cexB, _handle, lookupHandler, runHandlerBody,
        applyOutcome, BodyTrace.bind]
    have hR : _handle cexComp (unionTables cexA cexB) =
        .op ⟨"F", "op2", some []⟩ fun _ => .ret (.vNat 0) := by
      simp [cexComp, cexA, cexB, unionTables, _handle, lookupHandler,
        runHandlerBody, applyOutcome, BodyTrace.bind]
    rw [hL, hR]
    simp

/-- Left table of the C8 witness: `E.op1` resumes with `1` and yields
nothing. -/
def unionWA : HandlerTable := fun eff =>
  if eff = "E" then
    some fun cn =>
      if cn = "op1" then
        some (.fn fun _ => .callResume (.vNat 1) (.ret .vUndef))
      else none
  else none

/-- Right table of the C8 witness: `F.op2` is a value-shaped entry. -/
def unionWB : HandlerTable := fun eff =>
  if eff = "F" then
    some fun cn =>
      if cn = "op2" then some (.plain (.vNat 7)) else none
  else none

/-- Computation of the C8 witness: suspend with `E.op1`, then with
`F.op2`, then complete with the second resumption value. -/
def unionWC : Effectful :=
  .op ⟨"E", "op1", some []⟩ fun _ => .op ⟨"F", "op2", some []⟩ Effectful.ret

theorem compose_handlers_union_witness :
    DisjointTables unionWA unionWB ∧
    Effectful.Covered (unionTables unionWA unionWB) unionWC ∧
    Effectful.SafeFor unionWA unionWB unionWC ∧
    _handle (_handle unionWC unionWA) unionWB =
      _handle unionWC (unionTables unionWA unionWB) := by
  have h1 : DisjointTables unionWA unionWB := by
    intro a
    by_cases h : a.effectName = "E"
    · right
      simp [lookupHandler, unionWB, h]
    · left
      simp [lookupHandler, unionWA, h]
  have h2 : Effectful.Covered (unionTables unionWA unionWB) unionWC := by
    refine ⟨?_, fun v => ⟨?_, fun w => trivial⟩⟩
    · simp [lookupHandler, unionTables, unionWA, unionWB, unionWC]
    · simp [lookupHandler, unionTables, unionWA, unionWB, unionWC]
  have h3 : Effectful.SafeFor unionWA unionWB unionWC := by
    refine ⟨?_, fun v => ⟨?_, fun w => trivial⟩⟩
    · simp [lookupHandler, unionWA, unionWC, HandlerBody.Good]
    · simp [lookupHandler, unionWA, unionWB, unionWC]
  exact ⟨h1, h2, h3, compose_handlers_union unionWA unionWB h1 unionWC h2 h3⟩

end Hyogwa
